import Mathlib

/-!
Verification of the Extended-JobSpy field-extraction engine and batched
collection loop (files modified-jobspy.py and updated-modified-jobspy.py,
which share the extraction and validation code; the batched loop is in the
updated file).

Modelling conventions:
* Python text is modelled as List Char; Python str.strip is pyStrip, the
  slice text[:200] is List.take 200; the whitespace class \s and str.strip
  use the ASCII whitespace characters (space, tab, newline, carriage
  return, vertical tab, form feed), which covers all inputs appearing in
  the development.
* An Optional[str] field is Option (List Char); Python truthiness of such
  a value (None and the empty string are falsy) is pyTruthyStr, and the
  expression x or y on it is pyOrL.
* Each regular expression used by the source is translated into a
  dedicated executable matcher implementing exactly the leftmost-match,
  greedy, backtracking semantics of the Python re module for that pattern
  (the relevant backtracking behaviour of each pattern is documented at
  its matcher).
* Recursion that consumes a computed suffix of the input uses a fuel
  argument initialised to length + 1; every step consumes at least one
  character, so the fuel is never exhausted on the wrapper entry points.
* The external job source (scrape-jobs) is an oracle
  Nat -> Except Unit (List P) from page offset to a page of postings or a
  provider error; the HTML normaliser (BeautifulSoup get_text) is an
  oracle List Char -> Except Unit (List Char); exceptions raised by these
  collaborators are the Except.error case.
-/

/-- Python ASCII whitespace, as matched by the regex class \s and stripped
by str.strip (restricted to ASCII, which suffices for this development). -/
def isWs (c : Char) : Bool :=
  c == ' ' || c == '\t' || c == '\n' || c == '\r' || c == '\x0b' || c == '\x0c'

/-- The bullet marker class [-•\*] used by the extraction patterns. -/
def isMarker (c : Char) : Bool :=
  c == '-' || c == '•' || c == '*'

/-- Case folding used to model the re.IGNORECASE flag (ASCII lowering). -/
def lowerC (c : Char) : Char := c.toLower

/-- Python str.strip: remove leading and trailing whitespace. -/
def pyStrip (cs : List Char) : List Char :=
  ((cs.dropWhile isWs).reverse.dropWhile isWs).reverse

/-- Python expression x or y where x is an Optional string and y a string:
None and the empty string are falsy, so they fall through to y. -/
def pyOrL : Option (List Char) → List Char → List Char
  | some s, b => if s.isEmpty then b else s
  | none, b => b

/-- Python truthiness of an Optional string. -/
def pyTruthyStr : Option (List Char) → Bool
  | some s => !s.isEmpty
  | none => false

/-- Python truthiness of an Optional list. -/
def pyTruthyList : Option (List (List Char)) → Bool
  | some l => !l.isEmpty
  | none => false

/-- Case-insensitive literal match: if the pattern literal lab is a
prefix of cs up to case, return the remaining suffix. -/
def ciPref : List Char → List Char → Option (List Char)
  | [], cs => some cs
  | _ :: _, [] => none
  | l :: ls, c :: cs => if lowerC l = lowerC c then ciPref ls cs else none

/-- The JobDetails dataclass: all four fields default to absent (None). -/
structure JobDetails where
  summary : Option (List Char) := none
  essential_functions : Option (List (List Char)) := none
  education : Option (List Char) := none
  experience : Option (List Char) := none
deriving DecidableEq, Repr

/-- The EnhancedJobScraper configuration (its constructor arguments in
updated-modified-jobspy.py); the extraction methods never read it. -/
structure EnhancedJobScraper where
  sites : List (List Char)
  location : List Char
  country : List Char
  results_wanted : Nat
  hours_old : Nat
deriving DecidableEq, Repr

/-- A raw posting as returned by the external job source; only the
description participates in the enrichment logic, the remaining provider
columns are passed through unmodified and are abstracted as passthrough. -/
structure RawPosting where
  description : Option (List Char)
  passthrough : Nat
deriving DecidableEq, Repr

/-!
Matcher for the regex \s*([^\n]+) that follows a bullet marker in the
pattern [-•\*]\s*([^\n]+). Backtracking semantics: the greedy \s* first
consumes as much whitespace as possible (crossing newlines); if no
non-newline character follows the consumed run, it gives back one
whitespace character at a time, and the capture [^\n]+ then starts at the
first position holding a character other than a newline, extending
greedily up to the next newline. Returns (consumed whitespace, capture,
rest after the capture), or none when no capture position exists.
-/
def wsLine : List Char → Option (List Char × List Char × List Char)
  | [] => none
  | c :: cs =>
    if isWs c then
      match wsLine cs with
      | some (p, cap, r) => some (c :: p, cap, r)
      | none =>
        if c == '\n' then none
        else some ([], (c :: cs).takeWhile (fun x => x != '\n'),
                       (c :: cs).dropWhile (fun x => x != '\n'))
    else
      if c == '\n' then none
      else some ([], (c :: cs).takeWhile (fun x => x != '\n'),
                     (c :: cs).dropWhile (fun x => x != '\n'))

/-- Fuelled scan of re.findall with pattern [-•\*]\s*([^\n]+): at each
position, a match must start at a marker character; scanning resumes after
the end of each match (non-overlapping), or one character further on
failure. Each step consumes at least one character, so fuel length + 1 is
never exhausted. -/
def findBulletsF : Nat → List Char → List (List Char)
  | 0, _ => []
  | _ + 1, [] => []
  | fuel + 1, c :: cs =>
    if isMarker c then
      match wsLine cs with
      | some (_, cap, r) => cap :: findBulletsF fuel r
      | none => findBulletsF fuel cs
    else findBulletsF fuel cs

/-- All captures of re.findall for [-•\*]\s*([^\n]+) over the given text. -/
def findBullets (cs : List Char) : List (List Char) :=
  findBulletsF (cs.length + 1) cs

/-- One repetition of the bullet-line group \s*[-•\*]\s*[^\n]+\n* of the
labeled section pattern. The leading \s* can only stop at its maximal
whitespace run, where a marker must follow (marker characters are not
whitespace, so no other split can succeed); then wsLine, then the greedy
\n*. Returns (matched text, rest). -/
def bulletItem (cs : List Char) : Option (List Char × List Char) :=
  let pre := cs.takeWhile isWs
  match cs.dropWhile isWs with
  | [] => none
  | m :: rest =>
    if isMarker m then
      match wsLine rest with
      | some (p, cap, r) =>
        some (pre ++ m :: (p ++ cap ++ r.takeWhile (fun x => x == '\n')),
              r.dropWhile (fun x => x == '\n'))
      | none => none
    else none

/-- Greedy iteration of bulletItem, that is (\s*[-•\*]\s*[^\n]+\n*)* .
Because nothing follows the group in its pattern, the enclosing match
succeeds as soon as repetitions stop, so the regex engine never revisits
an earlier repetition: plain greedy iteration is the exact semantics.
Each repetition consumes at least the marker character, so fuel
length + 1 is never exhausted. -/
def bulletBlockF : Nat → List Char → List Char × List Char
  | 0, cs => ([], cs)
  | fuel + 1, cs =>
    match bulletItem cs with
    | some (m, r) =>
      let q := bulletBlockF fuel r
      (m ++ q.1, q.2)
    | none => ([], cs)

/-- Zero or more greedy repetitions of the bullet-line group. -/
def bulletBlock (cs : List Char) : List Char × List Char :=
  bulletBlockF (cs.length + 1) cs

/-- The apostrophe character, written by code point. -/
def apoC : Char := Char.ofNat 39

/-- The five section header literals of the labeled functions pattern. -/
def labelEssential : List Char := ("Essential Functions").data
def labelResponsibilities : List Char := ("Responsibilities").data
def labelDuties : List Char := ("Duties").data
def labelKeyResp : List Char := ("Key Responsibilities").data
def labelWhatYoullDo : List Char := ("What You").data ++ apoC :: ("ll Do").data

/-- Alternation order of the labeled pattern. No label is a prefix of
another (their first letters differ), so at most one branch can apply at
a given position. -/
def labelList : List (List Char) :=
  [labelEssential, labelResponsibilities, labelDuties, labelKeyResp, labelWhatYoullDo]

/-- Attempt the full labeled pattern
(?:labels)[:]\s*((?:\s*[-•\*]\s*[^\n]+\n*)+) at the current position for
one label: the literal (case-insensitively), a colon, the greedy outer
\s*, then at least one bullet-line repetition. The outer \s* and the
leading \s* of the first repetition together consume exactly the maximal
whitespace run, after which a marker must stand. Returns capture group 1. -/
def tryLabel (lab cs : List Char) : Option (List Char) :=
  match ciPref lab cs with
  | none => none
  | some r1 =>
    match r1 with
    | ':' :: r2 =>
      let body := r2.dropWhile isWs
      match bulletItem body with
      | some (m, r) => some (m ++ (bulletBlock r).1)
      | none => none
    | _ => none

/-- Try the alternation branches in pattern order at one position. -/
def tryLabels : List (List Char) → List Char → Option (List Char)
  | [], _ => none
  | lab :: rest, cs =>
    match tryLabel lab cs with
    | some cap => some cap
    | none => tryLabels rest cs

/-- Leftmost match of the labeled functions pattern: the first capture of
re.findall, scanning positions left to right. -/
def searchLabeled : List Char → Option (List Char)
  | [] => none
  | c :: cs =>
    match tryLabels labelList (c :: cs) with
    | some cap => some cap
    | none => searchLabeled cs

/-- Greedy splits for a starred character class: every way to split off a
prefix of the maximal run satisfying p, longest consumed first. -/
def runSplitsBy (p : Char → Bool) (cs : List Char) : List (List Char × List Char) :=
  let w := cs.takeWhile p
  let r := cs.dropWhile p
  (List.range (w.length + 1)).reverse.map (fun k => (w.take k, w.drop k ++ r))

/-- Greedy splits for a plus character class: as runSplitsBy but at least
one character must be consumed. -/
def plusSplitsBy (p : Char → Bool) (cs : List Char) : List (List Char × List Char) :=
  (runSplitsBy p cs).filter (fun x => !x.1.isEmpty)

/-- Alternatives, in backtracking order, of one repetition of the generic
bullet run pattern (?:\n\s*[-•\*]\s*[^\n]+\n*){2,}: a newline, greedy \s*
(longest first), a marker, greedy \s*, greedy non-empty [^\n]+, greedy
\n*. Unlike the labeled pattern, the minimum repetition count of this
pattern forces genuine backtracking across repetitions, so all
alternatives are produced. Each alternative consumes at least the leading
newline. -/
def repAlts (cs : List Char) : List (List Char × List Char) :=
  match cs with
  | '\n' :: cs1 =>
    (runSplitsBy isWs cs1).flatMap (fun x =>
      match x.2 with
      | m :: r2 =>
        if isMarker m then
          (runSplitsBy isWs r2).flatMap (fun y =>
            (plusSplitsBy (fun c => c != '\n') y.2).flatMap (fun z =>
              (runSplitsBy (fun c => c == '\n') z.2).map (fun w =>
                ('\n' :: x.1 ++ m :: y.1 ++ z.1 ++ w.1, w.2))))
        else []
      | [] => [])
  | _ => []

/-- Alternatives, in backtracking order, for at least needed repetitions
(greedy: more repetitions are preferred). Fuel length + 1 is never
exhausted since every repetition consumes at least one character. -/
def repsAux : Nat → List Char → Nat → List (List Char × List Char)
  | 0, _, _ => []
  | fuel + 1, cs, needed =>
    let more := (repAlts cs).flatMap (fun x =>
      (repsAux fuel x.2 (needed - 1)).map (fun y => (x.1 ++ y.1, y.2)))
    if needed == 0 then more ++ [([], cs)] else more

/-- First match of the generic pattern anchored at the current position. -/
def genericAt (cs : List Char) : Option (List Char) :=
  ((repsAux (cs.length + 1) cs 2).map Prod.fst).head?

/-- Leftmost match of the generic bullet run pattern, as used by
re.findall composed with taking the first element (the pattern has no
group, so findall returns whole matches). -/
def searchGeneric : List Char → Option (List Char)
  | [] => none
  | c :: cs =>
    match genericAt (c :: cs) with
    | some m => some m
    | none => searchGeneric cs

/-- The functions_text selection loop: try the labeled pattern first,
then the generic pattern; the first pattern with a non-empty findall
result wins and its first match is taken. -/
def functionsText (text : List Char) : Option (List Char) :=
  match searchLabeled text with
  | some cap => some cap
  | none => searchGeneric text

/-- The essential functions field: when functions_text is truthy, the
bullet captures of functions_text are stripped and the empty ones
dropped (the list comprehension with the if point.strip() guard);
otherwise the field stays absent. -/
def extractEF (text : List Char) : Option (List (List Char)) :=
  match functionsText text with
  | some ft =>
    if ft.isEmpty then none
    else some (((findBullets ft).map pyStrip).filter (fun p => !p.isEmpty))
  | none => none

/-!
Summary pattern 1: the regex ^([^.]+(?:[.]+[^.]+){0,2}\.) under
re.MULTILINE: the anchor matches at the start of the text or right after
a newline; the body is a non-empty run without periods ([^.] also matches
newlines), zero to two greedy repetitions of (periods then non-periods),
then one period. The matcher below enumerates the backtracking
alternatives (longest consumed first; two repetitions tried before one
before zero) and returns the first success. A repetition can only be
completed when each sub-expression consumes a full maximal run (a
shortened run leaves the wrong character class next), so at most one
split per repetition count is viable and this enumeration returns the
same match as the interleaved engine order.
-/

/-- Character test for a period. -/
def dotC (c : Char) : Bool := c == '.'

/-- Alternatives of one repetition [.]+[^.]+ in backtracking order. -/
def s1Rep (cs : List Char) : List (List Char × List Char) :=
  (plusSplitsBy dotC cs).flatMap (fun d =>
    (plusSplitsBy (fun c => !dotC c) d.2).map (fun n => (d.1 ++ n.1, n.2)))

/-- Complete the pattern after the initial run a, with remainder r1:
two repetitions, then one, then zero, each closed by a literal period. -/
def s1AfterA (a r1 : List Char) : List (List Char) :=
  ((s1Rep r1).flatMap (fun b1 =>
    (s1Rep b1.2).filterMap (fun b2 =>
      match b2.2 with
      | '.' :: _ => some (a ++ b1.1 ++ b2.1 ++ ['.'])
      | _ => none)))
  ++ ((s1Rep r1).filterMap (fun b1 =>
      match b1.2 with
      | '.' :: _ => some (a ++ b1.1 ++ ['.'])
      | _ => none))
  ++ (match r1 with
      | '.' :: _ => [a ++ ['.']]
      | _ => [])

/-- Match summary pattern 1 anchored at the current position. -/
def matchS1At (cs : List Char) : Option (List Char) :=
  ((plusSplitsBy (fun c => !dotC c) cs).flatMap (fun a => s1AfterA a.1 a.2)).head?

/-!
Summary pattern 2: the regex ^(.{50,200}(?:[.]|$)) under re.MULTILINE:
fifty to two hundred non-newline characters (greedy, longest first),
closed either by a literal period or by the MULTILINE end anchor (end of
text or directly before a newline).
-/

/-- Countdown over the greedy repetition length k, trying the period
branch before the anchor branch at each k, down to the minimum of 50. -/
def s2Down (cs : List Char) : Nat → Option (List Char)
  | 0 => none
  | k + 1 =>
    if k + 1 < 50 then none
    else
      match cs.drop (k + 1) with
      | '.' :: _ => some (cs.take (k + 1) ++ ['.'])
      | [] => some (cs.take (k + 1))
      | '\n' :: _ => some (cs.take (k + 1))
      | _ => s2Down cs k

/-- Match summary pattern 2 anchored at the current position: the greedy
length starts at the smaller of 200 and the current line length. -/
def matchS2At (cs : List Char) : Option (List Char) :=
  s2Down cs (min 200 (cs.takeWhile (fun c => c != '\n')).length)

/-- Scan the positions strictly after a newline, left to right, for the
first match of a MULTILINE-anchored pattern. -/
def searchMLAux (matchAt : List Char → Option (List Char)) : List Char → Option (List Char)
  | [] => none
  | c :: cs =>
    if c == '\n' then
      match matchAt cs with
      | some g => some g
      | none => searchMLAux matchAt cs
    else searchMLAux matchAt cs

/-- re.search for a MULTILINE-anchored pattern: position zero first, then
every position following a newline, leftmost match wins. -/
def searchML (matchAt : List Char → Option (List Char)) (cs : List Char) : Option (List Char) :=
  match matchAt cs with
  | some g => some g
  | none => searchMLAux matchAt cs

/-- The safe_extract call for the two summary patterns: the patterns are
tried in order, the first pattern whose search succeeds wins, and its
first capture group is stripped. Both patterns have a capture group and
always a group 1, so the IndexError and AttributeError guards of
safe_extract are unreachable for them. -/
def safeExtractSummary (text : List Char) : Option (List Char) :=
  match searchML matchS1At text with
  | some g => some (pyStrip g)
  | none =>
    match searchML matchS2At text with
    | some g => some (pyStrip g)
    | none => none

/-!
Education and experience patterns. The label-and-colon patterns such as
Education[^:]*:\s*([^\n\r•]*) have deterministic matching: [^:]* cannot
cross a colon, so it extends exactly to the first colon after the label;
the greedy \s* then consumes all whitespace (including newlines) and the
possibly empty capture [^\n\r•]* extends to the next newline, carriage
return or bullet character. The match succeeds even when the capture is
empty, in which case safe_extract returns the empty string.
-/

/-- Character test for the capture class [^\n\r•]. -/
def lcCaptureOk (c : Char) : Bool := c != '\n' && c != '\r' && c != '•'

/-- Character test for the run class [^•\n.] of the keyword patterns. -/
def notBTD (c : Char) : Bool := c != '•' && c != '\n' && c != '.'

/-- Match a label-and-colon pattern lab[^:]*:\s*([^\n\r•]*) at the
current position, returning the capture. -/
def labelColonAt (lab cs : List Char) : Option (List Char) :=
  match ciPref lab cs with
  | none => none
  | some r1 =>
    match r1.dropWhile (fun c => c != ':') with
    | ':' :: r2 => some ((r2.dropWhile isWs).takeWhile lcCaptureOk)
    | _ => none

/-- Generic re.search position scan (no anchor): try every position left
to right, leftmost match wins. -/
def searchPlain (matchAt : List Char → Option (List Char)) : List Char → Option (List Char)
  | [] => matchAt []
  | c :: cs =>
    match matchAt (c :: cs) with
    | some g => some g
    | none => searchPlain matchAt cs

/-- Keyword literals of the degree pattern. -/
def kwBachelor : List Char := ("Bachelor").data
def kwMaster : List Char := ("Master").data
def kwPhD : List Char := ("PhD").data
def kwDegree : List Char := ("degree").data

/-- First keyword of the alternation that matches case-insensitively at
the current position, returning the consumed text and the rest. The four
keywords start with distinct letters, so at most one branch applies. -/
def kwAlt : List (List Char) → List Char → Option (List Char × List Char)
  | [], _ => none
  | kw :: rest, cs =>
    match ciPref kw cs with
    | some r => some (cs.take kw.length, r)
    | none => kwAlt rest cs

/-- Match the pattern (?:Bachelor|Master|PhD|degree)[^•\n.]+ at the
current position; the pattern has no group, so the whole match is the
result. -/
def degreeAt (cs : List Char) : Option (List Char) :=
  match kwAlt [kwBachelor, kwMaster, kwPhD, kwDegree] cs with
  | some (t, r) =>
    let run := r.takeWhile notBTD
    if run.isEmpty then none else some (t ++ run)
  | none => none

/-- Literal pieces of the remaining patterns. -/
def kwEducation : List Char := ("Education").data
def kwQualifications : List Char := ("Qualifications").data
def kwAl : List Char := ("al").data
def kwRequirement : List Char := ("Requirement").data
def kwExperience : List Char := ("Experience").data
def kwYear : List Char := ("year").data
def kwOf : List Char := ("of").data
def kwMinimum : List Char := ("minimum").data
def kwOne : List Char := ("one").data
def kwTwo : List Char := ("two").data
def kwThree : List Char := ("three").data
def kwFour : List Char := ("four").data
def kwFive : List Char := ("five").data

/-- Consume an optional literal s (for the greedy s? of Requirements?
and years?). Taking the s can never forbid a continuation that skipping
it would allow in these patterns, since what follows is a colon, a
whitespace class or a run class excluding s, so greedy consumption is
exact. -/
def optS (cs : List Char) : List Char × List Char :=
  match cs with
  | c :: rest => if lowerC c = 's' then ([c], rest) else ([], cs)
  | [] => ([], [])

/-- Match Education(?:al)?\s+Requirements?:[^•\n.]+ at the current
position (whole match, no group). The optional al is greedy; when it is
taken, the no-al branch would need whitespace at the letter a, so greedy
consumption is exact. -/
def eduReqAt (cs : List Char) : Option (List Char) :=
  match ciPref kwEducation cs with
  | none => none
  | some r1 =>
    let alr :=
      match ciPref kwAl r1 with
      | some r => (r1.take 2, r)
      | none => ([], r1)
    let w := alr.2.takeWhile isWs
    if w.isEmpty then none
    else
      match ciPref kwRequirement (alr.2.dropWhile isWs) with
      | none => none
      | some r2 =>
        let sr := optS r2
        match sr.2 with
        | ':' :: r3 =>
          let run := r3.takeWhile notBTD
          if run.isEmpty then none
          else some (cs.take kwEducation.length ++ alr.1 ++ w
                     ++ (alr.2.dropWhile isWs).take kwRequirement.length
                     ++ sr.1 ++ ':' :: run)
        | _ => none

/-- The safe_extract call for the education patterns, in pattern order:
Education label capture, Qualifications label capture, degree keyword
run, Education Requirements run. -/
def extractEducation (text : List Char) : Option (List Char) :=
  match searchPlain (labelColonAt kwEducation) text with
  | some g => some (pyStrip g)
  | none =>
    match searchPlain (labelColonAt kwQualifications) text with
    | some g => some (pyStrip g)
    | none =>
      match searchPlain degreeAt text with
      | some g => some (pyStrip g)
      | none =>
        match searchPlain eduReqAt text with
        | some g => some (pyStrip g)
        | none => none

/-- Match Requirements?[^:]*:\s*([^\n\r•]*) at the current position. The
optional s is subsumed by the following [^:]* (s is not a colon), so the
label-and-colon matcher for the stem Requirement is exact. -/
def requirementsAt (cs : List Char) : Option (List Char) :=
  labelColonAt kwRequirement cs

/-- Match \d+[+]?\s+years?(?:\s+of)?\s+experience[^•\n.]+ at the current
position (whole match). The optional \s+of group is greedy; when it is
consumed, the skip branch would need the literal experience at the
letter o, so greedy consumption is exact. -/
def expYearsAt (cs : List Char) : Option (List Char) :=
  let d := cs.takeWhile Char.isDigit
  if d.isEmpty then none
  else
    let r1 := cs.dropWhile Char.isDigit
    let pr :=
      match r1 with
      | '+' :: rest => (['+'], rest)
      | _ => ([], r1)
    let w1 := pr.2.takeWhile isWs
    if w1.isEmpty then none
    else
      match ciPref kwYear (pr.2.dropWhile isWs) with
      | none => none
      | some r2 =>
        let yt := (pr.2.dropWhile isWs).take kwYear.length
        let sr := optS r2
        let ofr :=
          let w := sr.2.takeWhile isWs
          if w.isEmpty then ([], sr.2)
          else
            match ciPref kwOf (sr.2.dropWhile isWs) with
            | some r => (w ++ (sr.2.dropWhile isWs).take kwOf.length, r)
            | none => ([], sr.2)
        let w2 := ofr.2.takeWhile isWs
        if w2.isEmpty then none
        else
          match ciPref kwExperience (ofr.2.dropWhile isWs) with
          | none => none
          | some r3 =>
            let et := (ofr.2.dropWhile isWs).take kwExperience.length
            let run := r3.takeWhile notBTD
            if run.isEmpty then none
            else some (d ++ pr.1 ++ w1 ++ yt ++ sr.1 ++ ofr.1 ++ w2 ++ et ++ run)

/-- Match [Mm]inimum\s+(?:\d+|one|two|three|four|five)\s+years?[^•\n.]+
at the current position (whole match). The number alternation tries the
digit branch first; the spelled branches start with distinct letters. -/
def minYearsAt (cs : List Char) : Option (List Char) :=
  match ciPref kwMinimum cs with
  | none => none
  | some r1 =>
    let w1 := r1.takeWhile isWs
    if w1.isEmpty then none
    else
      let r2 := r1.dropWhile isWs
      let num : Option (List Char × List Char) :=
        let d := r2.takeWhile Char.isDigit
        if !d.isEmpty then some (d, r2.dropWhile Char.isDigit)
        else kwAlt [kwOne, kwTwo, kwThree, kwFour, kwFive] r2
      match num with
      | none => none
      | some (nt, r3) =>
        let w2 := r3.takeWhile isWs
        if w2.isEmpty then none
        else
          match ciPref kwYear (r3.dropWhile isWs) with
          | none => none
          | some r4 =>
            let yt := (r3.dropWhile isWs).take kwYear.length
            let sr := optS r4
            let run := sr.2.takeWhile notBTD
            if run.isEmpty then none
            else some (cs.take kwMinimum.length ++ w1 ++ nt ++ w2 ++ yt ++ sr.1 ++ run)

/-- The safe_extract call for the experience patterns, in pattern order:
Experience label capture, Requirements label capture, years-of-experience
run, minimum-years run. -/
def extractExperience (text : List Char) : Option (List Char) :=
  match searchPlain (labelColonAt kwExperience) text with
  | some g => some (pyStrip g)
  | none =>
    match searchPlain requirementsAt text with
    | some g => some (pyStrip g)
    | none =>
      match searchPlain expYearsAt text with
      | some g => some (pyStrip g)
      | none =>
        match searchPlain minYearsAt text with
        | some g => some (pyStrip g)
        | none => none

/-- The field extraction body applied to the normalized text (the code of
extract_additional_details after text = soup.get_text()): summary is the
safe_extract result of the two summary patterns with the Python or
fallback to the stripped first 200 characters, and is therefore always
an assigned string; the remaining fields keep their None default when no
pattern applies. -/
def extractFromText (text : List Char) : JobDetails :=
  { summary := some (pyOrL (safeExtractSummary text) (pyStrip (text.take 200)))
    essential_functions := extractEF text
    education := extractEducation text
    experience := extractExperience text }

/-- The extract_additional_details method: the whole body is wrapped in a
try-except that returns a fresh all-absent JobDetails when any exception
is raised; in this model the failure point is the external normaliser
(BeautifulSoup get_text). The scraper configuration self is an argument
that the body, faithfully to the source, never reads. -/
def extract_additional_details (_self : EnhancedJobScraper)
    (norm : List Char → Except Unit (List Char))
    (job_description : List Char) : JobDetails :=
  match norm job_description with
  | .ok text => extractFromText text
  | .error _ => {}

/-- Running the extraction twice on the same description, as in the
idempotence property of the specification. -/
def runExtractionTwice (self : EnhancedJobScraper)
    (norm : List Char → Except Unit (List Char))
    (job_description : List Char) : JobDetails × JobDetails :=
  (extract_additional_details self norm job_description,
   extract_additional_details self norm job_description)

/-- The validation gate of the processing loop: the condition
if details.summary, that is Python truthiness of the summary field. -/
def validationGate (details : JobDetails) : Bool :=
  pyTruthyStr details.summary

/-- Hexadecimal digit (lowercase), for the repr escape of control
characters. -/
def hexDigit (n : Nat) : Char :=
  if n < 10 then Char.ofNat (48 + n) else Char.ofNat (87 + n)

/-- Escape one character as Python repr does inside a quoted string with
the given quote character (ASCII model): backslash and the quote are
backslash-escaped, newline, carriage return and tab use their letter
escapes, other control characters use hexadecimal escapes. -/
def escChar (quote c : Char) : List Char :=
  if c = '\\' then ['\\', '\\']
  else if c = quote then ['\\', quote]
  else if c = '\n' then ['\\', 'n']
  else if c = '\r' then ['\\', 'r']
  else if c = '\t' then ['\\', 't']
  else if c.toNat < 32 || c.toNat == 127 then
    ['\\', 'x', hexDigit (c.toNat / 16), hexDigit (c.toNat % 16)]
  else [c]

/-- Python repr of a string: single-quoted, unless the string contains an
apostrophe and no double quote, in which case double-quoted. -/
def pyReprStr (s : List Char) : List Char :=
  let quote := if s.contains apoC && !s.contains '"' then '"' else apoC
  quote :: (s.flatMap (escChar quote)) ++ [quote]

/-- Python str of a list of strings: the bracketed comma-separated repr
of the elements. -/
def pyReprList (l : List (List Char)) : List Char :=
  '[' :: List.intercalate [',', ' '] (l.map pyReprStr) ++ [']']

/-- The sentinel substituted for education and experience at merge time. -/
def notSpecified : List Char := ("Not specified").data

/-- The enriched columns written into an accepted posting row. -/
structure MergedFields where
  summary : Option (List Char)
  essential_functions : Option (List Char)
  education : List Char
  experience : List Char
deriving DecidableEq, Repr

/-- The merge step executed for a posting that passed the gate:
summary is stored as extracted; essential_functions is stored as the str
rendering of the list when the list is truthy and None otherwise;
education and experience fall back to the sentinel exactly when falsy
(absent or empty). -/
def mergeDetails (details : JobDetails) : MergedFields :=
  { summary := details.summary
    essential_functions :=
      match details.essential_functions with
      | some l => if l.isEmpty then none else some (pyReprList l)
      | none => none
    education := pyOrL details.education notSpecified
    experience := pyOrL details.experience notSpecified }

/-- The per-posting processing loop of scrape (valid_jobs collection):
postings without a truthy description are skipped; extraction runs per
posting; the gate decides whether the merged row is appended. The
try-except around each posting makes any per-posting failure a skip, and
with the per-item failures internalised by extract_additional_details
the loop is total and processes every posting independently. -/
def processJobs (self : EnhancedJobScraper)
    (norm : List Char → Except Unit (List Char)) :
    List RawPosting → List MergedFields
  | [] => []
  | job :: rest =>
    match job.description with
    | some desc =>
      if desc.isEmpty then processJobs self norm rest
      else
        let details := extract_additional_details self norm desc
        if validationGate details then
          mergeDetails details :: processJobs self norm rest
        else processJobs self norm rest
    | none => processJobs self norm rest

/-- The scrape_batch method: one page request at the given offset; any
exception from the provider is caught and an empty page is returned. -/
def scrape_batch {P : Type} (source : Nat → Except Unit (List P)) (offset : Nat) : List P :=
  match source offset with
  | .ok page => page
  | .error _ => []

/-- The mutable state of the collection loop in scrape: the accumulated
postings, the next page offset and the total_results counter. -/
structure LoopState (P : Type) where
  all_jobs : List P
  offset : Nat
  total_results : Nat
deriving DecidableEq, Repr

/-- The initial collection state: no postings, offset zero, counter zero. -/
def initState (P : Type) : LoopState P := ⟨[], 0, 0⟩

/-- The collection loop of scrape: while total_results is below the
target, fetch a batch at the current offset; an empty batch breaks the
loop; otherwise the batch is appended, total_results is recomputed as the
length of the accumulated list, the offset advances by the fixed batch
size and the pacing delay runs. The result carries the final state, the
number of loop-body iterations executed (page requests made), the number
of pacing delays performed (one per non-breaking iteration) and whether
the loop finished (fuel zero, which a sufficient fuel never reaches,
reports false). The batch size is the literal 25 in the source; it is a
parameter here, instantiated to 25 by scrape. -/
def runLoop {P : Type} (source : Nat → Except Unit (List P))
    (target batchSize : Nat) : Nat → LoopState P → LoopState P × Nat × Nat × Bool
  | 0, s => (s, 0, 0, false)
  | fuel + 1, s =>
    if s.total_results < target then
      let batch := scrape_batch source s.offset
      if batch.isEmpty then (s, 1, 0, true)
      else
        let s' : LoopState P :=
          ⟨s.all_jobs ++ batch, s.offset + batchSize, (s.all_jobs ++ batch).length⟩
        let r := runLoop source target batchSize fuel s'
        (r.1, r.2.1 + 1, r.2.2.1 + 1, r.2.2.2)
    else (s, 0, 0, true)

/-- The sequence of loop states observed at the head of the collection
loop, in order, starting from the given state; the last listed state is
the state at exit (by break, by the count condition, or at fuel
exhaustion, which a sufficient fuel never reaches). -/
def loopTrace {P : Type} (source : Nat → Except Unit (List P))
    (target batchSize : Nat) : Nat → LoopState P → List (LoopState P)
  | 0, s => [s]
  | fuel + 1, s =>
    if s.total_results < target then
      let batch := scrape_batch source s.offset
      if batch.isEmpty then [s]
      else
        s :: loopTrace source target batchSize fuel
          ⟨s.all_jobs ++ batch, s.offset + batchSize, (s.all_jobs ++ batch).length⟩
    else [s]

/-- The scrape method of the updated source: collect postings in batches
of 25 until the configured result target is reached or the source is
exhausted, then run the per-posting enrichment pipeline on the collected
postings. The fuel target + 1 is sufficient for every source because each
non-breaking iteration grows the accumulated list by at least one. -/
def scrape (self : EnhancedJobScraper)
    (source : Nat → Except Unit (List RawPosting))
    (norm : List Char → Except Unit (List Char)) : List MergedFields :=
  let collected := runLoop source self.results_wanted 25
    (self.results_wanted + 1) (initState RawPosting)
  processJobs self norm collected.1.all_jobs

/-- A bullet line of a posting text: a dash marker, one space, the body,
a newline. -/
def renderBullet (b : List Char) : List Char := '-' :: ' ' :: b ++ ['\n']

/-- A run of bullet lines. -/
def renderBullets : List (List Char) → List Char
  | [] => []
  | b :: bs => renderBullet b ++ renderBullets bs

/-- A posting text containing a labeled section followed by bullet
lines: the header, a colon, a newline, then the bullet lines. This is
the input family over which the essential functions claim is stated. -/
def renderSection (lab : List Char) (bs : List (List Char)) : List Char :=
  lab ++ ':' :: '\n' :: renderBullets bs

/-- A source used by the counterexample to the collection-continuation
claim: the first page succeeds, the page at offset 25 raises a provider
error, and a further page would be available at offset 50. -/
def errSource : Nat → Except Unit (List Nat) := fun off =>
  if off = 0 then .ok [10, 11] else if off = 25 then .error () else .ok [12]

/-! Helper lemmas. -/

theorem dropWhile_dropWhile (p : Char → Bool) (l : List Char) :
    (l.dropWhile p).dropWhile p = l.dropWhile p := by
  induction l with
  | nil => rfl
  | cons c l ih =>
    by_cases h : p c = true
    · simp [List.dropWhile_cons, h, ih]
    · simp [List.dropWhile_cons, h]

theorem pyStrip_dropWhile (b : List Char) :
    pyStrip (b.dropWhile isWs) = pyStrip b := by
  unfold pyStrip
  rw [dropWhile_dropWhile]

theorem exists_nonWs_of_strip {b : List Char} (h : pyStrip b ≠ []) :
    ∃ c ∈ b, isWs c = false := by
  by_contra hall
  push_neg at hall
  apply h
  have hdrop : b.dropWhile isWs = [] := by
    rw [List.dropWhile_eq_nil_iff]
    intro x hx
    have := hall x hx
    simpa using this
  simp [pyStrip, hdrop]

theorem takeWhile_no_newline (b rest : List Char) (h : '\n' ∉ b) :
    (b ++ '\n' :: rest).takeWhile (fun x => x != '\n') = b ∧
    (b ++ '\n' :: rest).dropWhile (fun x => x != '\n') = '\n' :: rest := by
  induction b with
  | nil => simp
  | cons c b ih =>
    have hc : c ≠ '\n' := by intro hcn; exact h (hcn ▸ List.mem_cons_self c b)
    have hb : '\n' ∉ b := fun hm => h (List.mem_cons_of_mem c hm)
    obtain ⟨ih1, ih2⟩ := ih hb
    constructor
    · simpa [List.takeWhile_cons, hc] using ih1
    · simpa [List.dropWhile_cons, hc] using ih2

theorem wsLine_clean (b rest : List Char) (hnw : ∃ c ∈ b, isWs c = false)
    (hnl : '\n' ∉ b) :
    wsLine (b ++ '\n' :: rest) =
      some (b.takeWhile isWs, b.dropWhile isWs, '\n' :: rest) := by
  induction b with
  | nil => simp at hnw
  | cons c b ih =>
    have hb : '\n' ∉ b := fun hm => hnl (List.mem_cons_of_mem c hm)
    by_cases hws : isWs c = true
    · have hnw' : ∃ x ∈ b, isWs x = false := by
        rcases hnw with ⟨x, hx, hxf⟩
        rcases List.mem_cons.mp hx with rfl | hxm
        · rw [hws] at hxf; cases hxf
        · exact ⟨x, hxm, hxf⟩
      rw [List.cons_append]
      unfold wsLine
      rw [ih hnw' hb]
      simp [hws, List.takeWhile_cons, List.dropWhile_cons]
    · have hc : c ≠ '\n' := by
        intro hcn
        rw [hcn] at hws
        simp [isWs] at hws
      have hws' : isWs c = false := by simpa using hws
      rw [List.cons_append]
      unfold wsLine
      obtain ⟨ht, hd⟩ := takeWhile_no_newline (c :: b) rest hnl
      rw [List.cons_append] at ht hd
      simp only [hws', Bool.false_eq_true, if_false, reduceIte,
        beq_iff_eq, hc, if_neg hc]
      rw [ht, hd]
      simp [List.takeWhile_cons, List.dropWhile_cons, hws']

theorem renderBullets_cons (b : List Char) (bs : List (List Char)) :
    renderBullets (b :: bs) = '-' :: ' ' :: (b ++ '\n' :: renderBullets bs) := by
  simp [renderBullets, renderBullet]

theorem renderBullets_head_marker (bs : List (List Char)) :
    (renderBullets bs).takeWhile (fun x => x == '\n') = [] ∧
    (renderBullets bs).dropWhile (fun x => x == '\n') = renderBullets bs := by
  cases bs with
  | nil => simp [renderBullets]
  | cons b bs => rw [renderBullets_cons]; simp

theorem bulletItem_render (b : List Char) (bs : List (List Char))
    (hnl : '\n' ∉ b) (hst : pyStrip b ≠ []) :
    bulletItem (renderBullets (b :: bs)) =
      some (renderBullet b, renderBullets bs) := by
  rw [renderBullets_cons]
  have hnw : ∃ c ∈ ' ' :: b, isWs c = false := by
    rcases exists_nonWs_of_strip hst with ⟨c, hc, hcf⟩
    exact ⟨c, List.mem_cons_of_mem ' ' hc, hcf⟩
  have hnl' : '\n' ∉ ' ' :: b := by
    intro hm
    rcases List.mem_cons.mp hm with h | h
    · cases h
    · exact hnl h
  have hws : wsLine (' ' :: (b ++ '\n' :: renderBullets bs)) =
      some ((' ' :: b).takeWhile isWs, (' ' :: b).dropWhile isWs,
            '\n' :: renderBullets bs) := by
    have := wsLine_clean (' ' :: b) (renderBullets bs) hnw hnl'
    simpa using this
  have hdash : isWs '-' = false := by decide
  have hmark : isMarker '-' = true := by decide
  unfold bulletItem
  simp only [List.takeWhile_cons, List.dropWhile_cons, hdash,
    Bool.false_eq_true, if_false, hmark, if_true, reduceIte]
  rw [hws]
  obtain ⟨h1, h2⟩ := renderBullets_head_marker bs
  have hsp : isWs ' ' = true := by decide
  simp only [List.takeWhile_cons, List.dropWhile_cons, hsp, if_true,
    List.takeWhile_cons, reduceIte]
  have hnlt : (('\n' : Char) == '\n') = true := by decide
  simp only [hnlt, List.takeWhile_cons, List.dropWhile_cons, if_true, h1, h2, reduceIte]
  simp only [List.nil_append, renderBullet]
  have hb : List.takeWhile isWs b ++ (List.dropWhile isWs b ++ ['\n'])
      = b ++ ['\n'] := by
    rw [← List.append_assoc, List.takeWhile_append_dropWhile]
  simp [hb]

theorem renderBullets_length_cons (b : List Char) (bs : List (List Char)) :
    (renderBullets (b :: bs)).length = b.length + 3 + (renderBullets bs).length := by
  rw [renderBullets_cons]
  simp
  omega

theorem bulletBlockF_render (bs : List (List Char)) :
    ∀ fuel, (∀ b ∈ bs, '\n' ∉ b ∧ pyStrip b ≠ []) →
    (renderBullets bs).length + 1 ≤ fuel →
    bulletBlockF fuel (renderBullets bs) = (renderBullets bs, []) := by
  induction bs with
  | nil =>
    intro fuel _ hfuel
    obtain ⟨f, rfl⟩ : ∃ f, fuel = f + 1 := ⟨fuel - 1, by omega⟩
    simp [renderBullets, bulletBlockF, bulletItem]
  | cons b bs ih =>
    intro fuel hgood hfuel
    obtain ⟨f, rfl⟩ : ∃ f, fuel = f + 1 :=
      ⟨fuel - 1, by rw [renderBullets_length_cons] at hfuel; omega⟩
    obtain ⟨hnl, hst⟩ := hgood b (List.mem_cons_self b bs)
    have hitem := bulletItem_render b bs hnl hst
    have hrec : bulletBlockF f (renderBullets bs) = (renderBullets bs, []) := by
      apply ih f (fun x hx => hgood x (List.mem_cons_of_mem b hx))
      rw [renderBullets_length_cons] at hfuel
      omega
    simp only [bulletBlockF, hitem, hrec]
    simp [renderBullets]

theorem findBulletsF_render (bs : List (List Char)) :
    ∀ fuel, (∀ b ∈ bs, '\n' ∉ b ∧ pyStrip b ≠ []) →
    (renderBullets bs).length + 1 ≤ fuel →
    findBulletsF fuel (renderBullets bs) = bs.map (fun b => b.dropWhile isWs) := by
  induction bs with
  | nil =>
    intro fuel _ hfuel
    obtain ⟨f, rfl⟩ : ∃ f, fuel = f + 1 := ⟨fuel - 1, by omega⟩
    simp [renderBullets, findBulletsF]
  | cons b bs ih =>
    intro fuel hgood hfuel
    rw [renderBullets_length_cons] at hfuel
    obtain ⟨f, rfl⟩ : ∃ f, fuel = f + 1 := ⟨fuel - 1, by omega⟩
    obtain ⟨f2, rfl⟩ : ∃ f2, f = f2 + 1 := ⟨f - 1, by omega⟩
    obtain ⟨hnl, hst⟩ := hgood b (List.mem_cons_self b bs)
    have hnw : ∃ c ∈ ' ' :: b, isWs c = false := by
      rcases exists_nonWs_of_strip hst with ⟨c, hc, hcf⟩
      exact ⟨c, List.mem_cons_of_mem ' ' hc, hcf⟩
    have hnl' : '\n' ∉ ' ' :: b := by
      intro hm
      rcases List.mem_cons.mp hm with h | h
      · cases h
      · exact hnl h
    have hws : wsLine (' ' :: (b ++ '\n' :: renderBullets bs)) =
        some ((' ' :: b).takeWhile isWs, (' ' :: b).dropWhile isWs,
              '\n' :: renderBullets bs) := by
      have := wsLine_clean (' ' :: b) (renderBullets bs) hnw hnl'
      simpa using this
  -- unfold the scan on the rendered text: marker, capture, skip the newline
    rw [renderBullets_cons]
    have hmark : isMarker '-' = true := by decide
    have hnm : isMarker '\n' = false := by decide
    simp only [findBulletsF, hmark, if_true, hws, hnm, Bool.false_eq_true,
      if_false, reduceIte]
    have hrec : findBulletsF f2 (renderBullets bs)
        = bs.map (fun b => b.dropWhile isWs) := by
      apply ih f2 (fun x hx => hgood x (List.mem_cons_of_mem b hx))
      omega
    rw [hrec]
    have hsp : isWs ' ' = true := by decide
    simp [List.dropWhile_cons, hsp]

theorem ciPref_self_append (lab rest : List Char) :
    ciPref lab (lab ++ rest) = some rest := by
  induction lab with
  | nil => rfl
  | cons l ls ih => simp [ciPref, ih]

theorem tryLabel_render (lab b : List Char) (bs : List (List Char))
    (hgood : ∀ x ∈ b :: bs, '\n' ∉ x ∧ pyStrip x ≠ []) :
    tryLabel lab (renderSection lab (b :: bs)) = some (renderBullets (b :: bs)) := by
  unfold renderSection tryLabel
  rw [ciPref_self_append]
  obtain ⟨hnl, hst⟩ := hgood b (List.mem_cons_self b bs)
  have hbody : List.dropWhile isWs ('\n' :: renderBullets (b :: bs))
      = renderBullets (b :: bs) := by
    have hn : isWs '\n' = true := by decide
    have hd : isWs '-' = false := by decide
    rw [List.dropWhile_cons]
    simp only [hn, if_true, reduceIte]
    rw [renderBullets_cons, List.dropWhile_cons]
    simp [hd, renderBullets_cons]
  simp only [hbody]
  rw [bulletItem_render b bs hnl hst]
  unfold bulletBlock
  show some (renderBullet b
      ++ (bulletBlockF ((renderBullets bs).length + 1) (renderBullets bs)).1)
    = some (renderBullets (b :: bs))
  rw [bulletBlockF_render bs ((renderBullets bs).length + 1)
      (fun x hx => hgood x (List.mem_cons_of_mem b hx)) (le_refl _)]
  simp [renderBullets]

theorem searchLabeled_render (lab : List Char) (hlab : lab ∈ labelList)
    (b : List Char) (bs : List (List Char))
    (hgood : ∀ x ∈ b :: bs, '\n' ∉ x ∧ pyStrip x ≠ []) :
    searchLabeled (renderSection lab (b :: bs)) = some (renderBullets (b :: bs)) := by
  have htry := tryLabel_render lab b bs hgood
  simp only [labelList, List.mem_cons, List.not_mem_nil, or_false] at hlab
  rcases hlab with rfl | rfl | rfl | rfl | rfl
  · have h0 : renderSection labelEssential (b :: bs) =
        'E' :: (("ssential Functions").data ++ ':' :: '\n' :: renderBullets (b :: bs)) := rfl
    rw [h0] at htry
    rw [h0]
    simp only [searchLabeled, labelList, tryLabels, htry]
  · have h0 : renderSection labelResponsibilities (b :: bs) =
        'R' :: (("esponsibilities").data ++ ':' :: '\n' :: renderBullets (b :: bs)) := rfl
    have e1 : tryLabel labelEssential
        ('R' :: (("esponsibilities").data ++ ':' :: '\n' :: renderBullets (b :: bs))) = none := rfl
    rw [h0] at htry
    rw [h0]
    simp only [searchLabeled, labelList, tryLabels, e1, htry]
  · have h0 : renderSection labelDuties (b :: bs) =
        'D' :: (("uties").data ++ ':' :: '\n' :: renderBullets (b :: bs)) := rfl
    have e1 : tryLabel labelEssential
        ('D' :: (("uties").data ++ ':' :: '\n' :: renderBullets (b :: bs))) = none := rfl
    have e2 : tryLabel labelResponsibilities
        ('D' :: (("uties").data ++ ':' :: '\n' :: renderBullets (b :: bs))) = none := rfl
    rw [h0] at htry
    rw [h0]
    simp only [searchLabeled, labelList, tryLabels, e1, e2, htry]
  · have h0 : renderSection labelKeyResp (b :: bs) =
        'K' :: (("ey Responsibilities").data ++ ':' :: '\n' :: renderBullets (b :: bs)) := rfl
    have e1 : tryLabel labelEssential
        ('K' :: (("ey Responsibilities").data ++ ':' :: '\n' :: renderBullets (b :: bs))) = none := rfl
    have e2 : tryLabel labelResponsibilities
        ('K' :: (("ey Responsibilities").data ++ ':' :: '\n' :: renderBullets (b :: bs))) = none := rfl
    have e3 : tryLabel labelDuties
        ('K' :: (("ey Responsibilities").data ++ ':' :: '\n' :: renderBullets (b :: bs))) = none := rfl
    rw [h0] at htry
    rw [h0]
    simp only [searchLabeled, labelList, tryLabels, e1, e2, e3, htry]
  · have h0 : renderSection labelWhatYoullDo (b :: bs) =
        'W' :: ((("hat You").data ++ apoC :: ("ll Do").data)
          ++ ':' :: '\n' :: renderBullets (b :: bs)) := rfl
    have e1 : tryLabel labelEssential
        ('W' :: ((("hat You").data ++ apoC :: ("ll Do").data)
          ++ ':' :: '\n' :: renderBullets (b :: bs))) = none := rfl
    have e2 : tryLabel labelResponsibilities
        ('W' :: ((("hat You").data ++ apoC :: ("ll Do").data)
          ++ ':' :: '\n' :: renderBullets (b :: bs))) = none := rfl
    have e3 : tryLabel labelDuties
        ('W' :: ((("hat You").data ++ apoC :: ("ll Do").data)
          ++ ':' :: '\n' :: renderBullets (b :: bs))) = none := rfl
    have e4 : tryLabel labelKeyResp
        ('W' :: ((("hat You").data ++ apoC :: ("ll Do").data)
          ++ ':' :: '\n' :: renderBullets (b :: bs))) = none := rfl
    rw [h0] at htry
    rw [h0]
    simp only [searchLabeled, labelList, tryLabels, e1, e2, e3, e4, htry]

/-- Claim C5 (amended): for every posting text consisting of a
recognizable labeled section header followed by bullet lines whose bodies
contain no newline and at least one non-whitespace character, the
extracted essential_functions equals the ordered sequence of bullet
bodies in source order, whitespace-trimmed, with the bullet markers
removed; and whenever a chosen block yields zero non-empty bullets, the
essential_functions field is set to the empty list (not left absent). -/
theorem claim_C5_amended :
    (∀ lab ∈ labelList, ∀ b : List Char, ∀ bs : List (List Char),
      (∀ x ∈ b :: bs, '\n' ∉ x ∧ pyStrip x ≠ []) →
      (extractFromText (renderSection lab (b :: bs))).essential_functions
        = some ((b :: bs).map pyStrip)) ∧
    (∀ text ft, functionsText text = some ft → ft ≠ [] →
      ((findBullets ft).map pyStrip).filter (fun p => !p.isEmpty) = [] →
      (extractFromText text).essential_functions = some []) := by
  constructor
  · intro lab hlab b bs hgood
    have hsec := searchLabeled_render lab hlab b bs hgood
    show extractEF (renderSection lab (b :: bs)) = some ((b :: bs).map pyStrip)
    unfold extractEF functionsText
    rw [hsec]
    have hne : (renderBullets (b :: bs)).isEmpty = false := by
      rw [renderBullets_cons]; rfl
    simp only [hne, Bool.false_eq_true, if_false, reduceIte]
    unfold findBullets
    rw [findBulletsF_render (b :: bs) ((renderBullets (b :: bs)).length + 1)
        hgood (le_refl _)]
    rw [List.map_map]
    have hcomp : (pyStrip ∘ fun x => x.dropWhile isWs) = pyStrip := by
      funext x
      exact pyStrip_dropWhile x
    rw [hcomp]
    rw [List.filter_eq_self.mpr]
    intro a ha
    rcases List.mem_map.mp ha with ⟨x, hx, rfl⟩
    have := (hgood x hx).2
    simpa [List.isEmpty_iff] using this
  · intro text ft h1 h2 h3
    show extractEF text = some []
    unfold extractEF
    rw [h1]
    have hne : ft.isEmpty = false := by simpa [List.isEmpty_iff] using h2
    simp only [hne, Bool.false_eq_true, if_false, reduceIte, h3]

/-- Counterexample to claim C5 as stated: on the text Duties:-  (a
labeled header whose single bullet body is blank), the chosen block is
the matched bullet run, it yields zero non-empty bullets, and the
essential_functions field is set to the empty list rather than left
absent. -/
theorem claim_C5_counterexample :
    functionsText (("Duties:-  ").data) = some (("-  ").data) ∧
    ((findBullets (("-  ").data)).map pyStrip).filter (fun p => !p.isEmpty) = [] ∧
    (extractFromText (("Duties:-  ").data)).essential_functions = some [] ∧
    (extractFromText (("Duties:-  ").data)).essential_functions ≠ none := by
  refine ⟨by decide, by decide, by decide, by decide⟩

/-- Witness for claim C5: the amended theorem applied to the header
Duties with the single bullet body x, and to the blank-bullet text. -/
theorem claim_C5_witness :
    (extractFromText (renderSection labelDuties [("x").data])).essential_functions
      = some ([("x").data].map pyStrip) ∧
    (extractFromText (("Duties:-  ").data)).essential_functions = some [] :=
  ⟨claim_C5_amended.1 labelDuties (by decide) (("x").data) [] (by decide),
   claim_C5_amended.2 (("Duties:-  ").data) (("-  ").data) (by decide) (by decide)
     (by decide)⟩

/-- Claim C2 (amended): for every normalized posting text the extracted
summary is present (the field is always an assigned string, so it is
never None); for empty text it is the empty string, which downstream
truthiness (the validation gate) treats like an absent value, rather
than being literally absent. -/
theorem claim_C2_amended :
    (∀ text : List Char, (extractFromText text).summary.isSome = true) ∧
    (extractFromText []).summary = some [] := by
  constructor
  · intro text
    rfl
  · decide

/-- Counterexample to claim C2 as stated: for the empty normalized text
the extracted summary is the present empty string, not an absent field. -/
theorem claim_C2_counterexample :
    (extractFromText []).summary ≠ none ∧ (extractFromText []).summary = some [] := by
  refine ⟨by decide, by decide⟩

/-- Claim C3: the validation gate accepts a JobDetails record exactly
when its summary field is present and non-empty, and its verdict does not
depend on the other three fields. -/
theorem claim_C3 (d : JobDetails) :
    (validationGate d = true ↔ ∃ s, d.summary = some s ∧ s ≠ []) ∧
    ∀ ef ed ex, validationGate (JobDetails.mk d.summary ef ed ex)
      = validationGate d := by
  constructor
  · cases hs : d.summary with
    | none => simp [validationGate, pyTruthyStr, hs]
    | some s => simp [validationGate, pyTruthyStr, hs, List.isEmpty_iff]
  · intro ef ed ex
    rfl

/-- Claim C9: field extraction is a deterministic pure function of the
normalized text: running it twice yields identical JobDetails records,
and the result does not depend on the scraper configuration state. -/
theorem claim_C9 (selfA selfB : EnhancedJobScraper)
    (norm : List Char → Except Unit (List Char)) (text : List Char) :
    (runExtractionTwice selfA norm text).1 = (runExtractionTwice selfA norm text).2 ∧
    extract_additional_details selfA norm text = extract_additional_details selfB norm text :=
  ⟨rfl, rfl⟩

/-- Claim C7 (amended): the merge step substitutes the sentinel Not
specified exactly for education and experience values that are falsy
(absent or the present empty string); a present non-empty value is kept;
summary is stored unchanged and essential_functions never receives the
sentinel (an absent or empty list is stored as None). -/
theorem claim_C7_amended (d : JobDetails) :
    (d.education = none → (mergeDetails d).education = notSpecified) ∧
    (d.education = some [] → (mergeDetails d).education = notSpecified) ∧
    (∀ s, d.education = some s → s ≠ [] → (mergeDetails d).education = s) ∧
    (d.experience = none → (mergeDetails d).experience = notSpecified) ∧
    (d.experience = some [] → (mergeDetails d).experience = notSpecified) ∧
    (∀ s, d.experience = some s → s ≠ [] → (mergeDetails d).experience = s) ∧
    ((mergeDetails d).summary = d.summary) ∧
    (d.essential_functions = none ∨ d.essential_functions = some [] →
      (mergeDetails d).essential_functions = none) := by
  refine ⟨?_, ?_, ?_, ?_, ?_, ?_, rfl, ?_⟩
  · intro h; simp [mergeDetails, pyOrL, h]
  · intro h; simp [mergeDetails, pyOrL, h]
  · intro s h hne; simp [mergeDetails, pyOrL, h, List.isEmpty_iff, hne]
  · intro h; simp [mergeDetails, pyOrL, h]
  · intro h; simp [mergeDetails, pyOrL, h]
  · intro s h hne; simp [mergeDetails, pyOrL, h, List.isEmpty_iff, hne]
  · rintro (h | h) <;> simp [mergeDetails, h]

/-- Counterexample to claim C7 as stated: extraction of the text
Education: yields an accepted record whose education field is the present
empty string (not absent), and the merge still substitutes the sentinel
for it, so the sentinel is not applied exactly to absent values. -/
theorem claim_C7_counterexample :
    validationGate (extractFromText (("Education:").data)) = true ∧
    (extractFromText (("Education:").data)).education = some [] ∧
    (extractFromText (("Education:").data)).education ≠ none ∧
    (mergeDetails (extractFromText (("Education:").data))).education = notSpecified := by
  refine ⟨by decide, by decide, by decide, by decide⟩

/-- Witness for claim C7: the amended theorem applied at concrete
records covering each clause. -/
theorem claim_C7_witness :
    (mergeDetails ⟨some ("s").data, none, none, none⟩).education = notSpecified ∧
    (mergeDetails ⟨some ("s").data, none, some [], some []⟩).education = notSpecified ∧
    (mergeDetails ⟨some ("s").data, some [], some ("e").data, some ("x").data⟩).education
      = ("e").data ∧
    (mergeDetails ⟨some ("s").data, none, none, none⟩).experience = notSpecified ∧
    (mergeDetails ⟨some ("s").data, none, some [], some []⟩).experience = notSpecified ∧
    (mergeDetails ⟨some ("s").data, some [], some ("e").data, some ("x").data⟩).experience
      = ("x").data ∧
    (mergeDetails ⟨some ("s").data, some [], none, none⟩).summary = some ("s").data ∧
    (mergeDetails ⟨some ("s").data, some [], none, none⟩).essential_functions = none :=
  ⟨(claim_C7_amended _).1 rfl,
   (claim_C7_amended _).2.1 rfl,
   (claim_C7_amended _).2.2.1 _ rfl (by decide),
   (claim_C7_amended _).2.2.2.1 rfl,
   (claim_C7_amended _).2.2.2.2.1 rfl,
   (claim_C7_amended _).2.2.2.2.2.1 _ rfl (by decide),
   (claim_C7_amended _).2.2.2.2.2.2.1,
   (claim_C7_amended _).2.2.2.2.2.2.2 (Or.inr rfl)⟩

/-- Claim C10: the enriched output stores for essential_functions the
str rendering of the extracted list when the list is non-empty, and None
when the list is empty or absent, so an extracted empty list and an
absent field are indistinguishable in the output. -/
theorem claim_C10 (d : JobDetails) :
    (∀ l, d.essential_functions = some l → l ≠ [] →
      (mergeDetails d).essential_functions = some (pyReprList l)) ∧
    (d.essential_functions = some [] → (mergeDetails d).essential_functions = none) ∧
    (d.essential_functions = none → (mergeDetails d).essential_functions = none) ∧
    (mergeDetails { d with essential_functions := some [] }).essential_functions
      = (mergeDetails { d with essential_functions := none }).essential_functions := by
  refine ⟨?_, ?_, ?_, rfl⟩
  · intro l h hne; simp [mergeDetails, h, List.isEmpty_iff, hne]
  · intro h; simp [mergeDetails, h]
  · intro h; simp [mergeDetails, h]

/-- Witness for claim C10: the theorem applied at concrete records,
including the concrete str rendering of a two-element list. -/
theorem claim_C10_witness :
    (mergeDetails ⟨some ("s").data,
        some [("Build features").data, ("Fix bugs").data], none, none⟩).essential_functions
      = some (pyReprList [("Build features").data, ("Fix bugs").data]) ∧
    (mergeDetails ⟨some ("s").data, some [], none, none⟩).essential_functions = none ∧
    (mergeDetails ⟨some ("s").data, none, none, none⟩).essential_functions = none :=
  ⟨(claim_C10 _).1 _ rfl (by decide),
   (claim_C10 _).2.1 rfl,
   (claim_C10 _).2.2.1 rfl⟩

/-- Claim C8: an exception raised while extracting the details of one
posting (here, by the external normaliser) is caught locally and yields
the all-absent JobDetails for that posting, and processing of the
remaining postings of the batch is unaffected: the failing posting is
merely dropped. -/
theorem claim_C8 (self : EnhancedJobScraper)
    (norm : List Char → Except Unit (List Char)) (job : RawPosting)
    (rest : List RawPosting) (desc : List Char)
    (hdesc : job.description = some desc) (hne : desc ≠ [])
    (herr : norm desc = .error ()) :
    extract_additional_details self norm desc = {} ∧
    processJobs self norm (job :: rest) = processJobs self norm rest := by
  have hext : extract_additional_details self norm desc = {} := by
    unfold extract_additional_details
    rw [herr]
  refine ⟨hext, ?_⟩
  conv_lhs => rw [processJobs]
  rw [hdesc]
  have hie : desc.isEmpty = false := by simpa [List.isEmpty_iff] using hne
  simp only [hie, Bool.false_eq_true, if_false, reduceIte, hext]
  simp [validationGate, pyTruthyStr]

/-- Witness for claim C8: a posting whose normalisation always raises,
followed by an empty remainder of the batch. -/
theorem claim_C8_witness :
    extract_additional_details ⟨[], [], [], 5, 72⟩ (fun _ => Except.error ())
        (("a").data) = {} ∧
    processJobs ⟨[], [], [], 5, 72⟩ (fun _ => Except.error ())
        [⟨some (("a").data), 0⟩]
      = processJobs ⟨[], [], [], 5, 72⟩ (fun _ => Except.error ()) [] :=
  claim_C8 _ _ _ _ _ rfl (by decide) rfl

/-- Claim C1 (amended): a provider error on a page request is caught and
treated as an empty page; by the empty-page rule this terminates the
collection loop normally in that same iteration, with the previously
accumulated pages retained unchanged, no further offsets requested and no
pacing delay performed for the failed iteration, rather than continuing
to the next offset. -/
theorem claim_C1_amended {P : Type} (source : Nat → Except Unit (List P))
    (target bsz fuel : Nat) (s : LoopState P) (hf : 0 < fuel)
    (hc : s.total_results < target) (herr : source s.offset = .error ()) :
    scrape_batch source s.offset = [] ∧
    runLoop source target bsz fuel s = (s, 1, 0, true) := by
  have hb : scrape_batch source s.offset = [] := by
    unfold scrape_batch
    rw [herr]
  refine ⟨hb, ?_⟩
  obtain ⟨f, rfl⟩ : ∃ f, fuel = f + 1 := ⟨fuel - 1, by omega⟩
  unfold runLoop
  rw [if_pos hc]
  simp only [hb, List.isEmpty_nil, if_true, reduceIte]

/-- Counterexample to claim C1 as stated: with a source whose page at
offset 25 raises and whose page at offset 50 holds a further posting,
the collection run terminates at the failed page with offset still 25
and only the first page accumulated; it does not continue to offset 50. -/
theorem claim_C1_counterexample :
    runLoop errSource 10 25 12 (initState Nat)
      = (⟨[10, 11], 25, 2⟩, 2, 1, true) ∧
    scrape_batch errSource 50 = [12] := by
  refine ⟨by decide, by decide⟩

/-- Witness for claim C1: the amended theorem applied to a source that
always raises, from the initial state. -/
theorem claim_C1_witness :
    scrape_batch (fun _ => (Except.error () : Except Unit (List Nat)))
      (initState Nat).offset = [] ∧
    runLoop (fun _ => (Except.error () : Except Unit (List Nat))) 7 25 3
      (initState Nat) = (initState Nat, 1, 0, true) :=
  claim_C1_amended _ 7 25 3 (initState Nat) (by decide) (by decide) rfl

/-- Iteration bound for the collection loop: when every page carries at
least the batch size and the counter equals the accumulated length, the
loop finishes within k iterations whenever k pages suffice to reach the
target, given fuel above k. -/
theorem runLoop_bound {P : Type} (source : Nat → Except Unit (List P))
    (target bsz : Nat)
    (hpages : ∀ off, bsz ≤ (scrape_batch source off).length) :
    ∀ (k fuel : Nat) (s : LoopState P), s.total_results = s.all_jobs.length →
      target ≤ s.total_results + k * bsz → k + 1 ≤ fuel →
      (runLoop source target bsz fuel s).2.2.2 = true ∧
      (runLoop source target bsz fuel s).2.1 ≤ k := by
  intro k
  induction k with
  | zero =>
    intro fuel s hinv htar hfuel
    obtain ⟨f, rfl⟩ : ∃ f, fuel = f + 1 := ⟨fuel - 1, by omega⟩
    have hnc : ¬ (s.total_results < target) := by omega
    unfold runLoop
    rw [if_neg hnc]
    exact ⟨rfl, le_refl 0⟩
  | succ k ih =>
    intro fuel s hinv htar hfuel
    obtain ⟨f, rfl⟩ : ∃ f, fuel = f + 1 := ⟨fuel - 1, by omega⟩
    by_cases hc : s.total_results < target
    · have hlen := hpages s.offset
      have hbsz : 0 < bsz := by
        rcases Nat.eq_zero_or_pos bsz with h0 | h0
        · rw [h0] at htar
          omega
        · exact h0
      have hbne : (scrape_batch source s.offset).isEmpty = false := by
        cases hsb : scrape_batch source s.offset with
        | nil => rw [hsb] at hlen; simp at hlen; omega
        | cons a l => rfl
      have hrec := ih f
        ⟨s.all_jobs ++ scrape_batch source s.offset, s.offset + bsz,
         (s.all_jobs ++ scrape_batch source s.offset).length⟩ rfl
        (by
          simp only [List.length_append]
          rw [Nat.succ_mul] at htar
          omega)
        (by omega)
      unfold runLoop
      rw [if_pos hc]
      simp only [hbne, Bool.false_eq_true, if_false, reduceIte]
      exact ⟨hrec.1, by omega⟩
    · unfold runLoop
      rw [if_neg hc]
      exact ⟨rfl, Nat.zero_le _⟩

/-- Claim C4 (amended): if every page delivered carries at least the
page size (in particular no empty page appears before the target is
reached), the collection loop finishes within the ceiling of target over
page size iterations; and in any run, receiving an empty page terminates
the loop in that same iteration regardless of the accumulated count. -/
theorem claim_C4_amended {P : Type} (source : Nat → Except Unit (List P))
    (target bsz : Nat) :
    (0 < bsz → (∀ off, bsz ≤ (scrape_batch source off).length) →
      (runLoop source target bsz ((target + bsz - 1) / bsz + 1)
          (initState P)).2.2.2 = true ∧
      (runLoop source target bsz ((target + bsz - 1) / bsz + 1)
          (initState P)).2.1 ≤ (target + bsz - 1) / bsz) ∧
    (∀ fuel (s : LoopState P), 0 < fuel → s.total_results < target →
      (scrape_batch source s.offset).isEmpty = true →
      runLoop source target bsz fuel s = (s, 1, 0, true)) := by
  constructor
  · intro hbsz hpages
    apply runLoop_bound source target bsz hpages ((target + bsz - 1) / bsz)
      ((target + bsz - 1) / bsz + 1) (initState P) rfl ?_ (le_refl _)
    have hd := Nat.div_add_mod (target + bsz - 1) bsz
    have hm : (target + bsz - 1) % bsz < bsz := Nat.mod_lt _ hbsz
    have hco : ((target + bsz - 1) / bsz) * bsz = bsz * ((target + bsz - 1) / bsz) :=
      Nat.mul_comm _ _
    show target ≤ (initState P).total_results + ((target + bsz - 1) / bsz) * bsz
    rw [hco]
    omega
  · intro fuel s hf hc hb
    obtain ⟨f, rfl⟩ : ∃ f, fuel = f + 1 := ⟨fuel - 1, by omega⟩
    unfold runLoop
    rw [if_pos hc]
    simp only [hb, if_true, reduceIte]

/-- Counterexample to claim C4 as stated: a source that always delivers
one posting per page never returns an empty page, yet reaching a target
of two postings with page size 25 takes two loop iterations, exceeding
the ceiling bound of one iteration. -/
theorem claim_C4_counterexample :
    (runLoop (fun _ => Except.ok [0]) 2 25 5 (initState Nat)).2.1 = 2 ∧
    ¬ ((runLoop (fun _ => Except.ok [0]) 2 25 5 (initState Nat)).2.1
        ≤ (2 + 25 - 1) / 25) ∧
    scrape_batch (fun _ => (Except.ok [0] : Except Unit (List Nat))) 0 = [0] ∧
    scrape_batch (fun _ => (Except.ok [0] : Except Unit (List Nat))) 25 = [0] := by
  refine ⟨by decide, by decide, by decide, by decide⟩

/-- Witness for claim C4: the amended theorem applied to a source of
full pages of 25 with a target of 50, and its empty-page clause applied
to a source that raises immediately. -/
theorem claim_C4_witness :
    ((runLoop (fun _ => Except.ok (List.replicate 25 0)) 50 25
        ((50 + 25 - 1) / 25 + 1) (initState Nat)).2.2.2 = true ∧
      (runLoop (fun _ => Except.ok (List.replicate 25 0)) 50 25
        ((50 + 25 - 1) / 25 + 1) (initState Nat)).2.1 ≤ (50 + 25 - 1) / 25) ∧
    runLoop (fun _ => (Except.error () : Except Unit (List Nat))) 5 25 1
      (initState Nat) = (initState Nat, 1, 0, true) :=
  ⟨(claim_C4_amended (fun _ => Except.ok (List.replicate 25 0)) 50 25).1
      (by decide) (fun off => by simp [scrape_batch]),
   (claim_C4_amended (fun _ => (Except.error () : Except Unit (List Nat))) 5 25).2
      1 (initState Nat) (by decide) (by decide) (by decide)⟩

/-- The trace of the collection loop always starts with the entry state. -/
theorem loopTrace_head {P : Type} (source : Nat → Except Unit (List P))
    (target bsz fuel : Nat) (s : LoopState P) :
    ∃ l, loopTrace source target bsz fuel s = s :: l := by
  cases fuel with
  | zero => exact ⟨[], rfl⟩
  | succ f =>
    unfold loopTrace
    by_cases hc : s.total_results < target
    · rw [if_pos hc]
      by_cases hb : (scrape_batch source s.offset).isEmpty
      · rw [if_pos hb]
        exact ⟨[], rfl⟩
      · rw [if_neg hb]
        exact ⟨_, rfl⟩
    · rw [if_neg hc]
      exact ⟨[], rfl⟩

/-- Claim C6: across every iteration of the collection loop the offset
advances by exactly the fixed page size, regardless of the number of
postings the page returned, and the running count at every loop head
equals the length of the accumulated posting list (it is recomputed from
the list, never independently incremented). -/
theorem claim_C6 {P : Type} (source : Nat → Except Unit (List P))
    (target bsz fuel : Nat) (s : LoopState P)
    (hinv : s.total_results = s.all_jobs.length) :
    (∀ t ∈ loopTrace source target bsz fuel s,
        t.total_results = t.all_jobs.length) ∧
    List.Chain' (fun a b => b.offset = a.offset + bsz)
      (loopTrace source target bsz fuel s) := by
  induction fuel generalizing s with
  | zero =>
    constructor
    · intro t ht
      have : t = s := by simpa [loopTrace] using ht
      rw [this]
      exact hinv
    · simp [loopTrace]
  | succ f ih =>
    by_cases hc : s.total_results < target
    · by_cases hb : (scrape_batch source s.offset).isEmpty
      · constructor
        · intro t ht
          have : t = s := by simpa [loopTrace, hc, hb] using ht
          rw [this]
          exact hinv
        · simp [loopTrace, hc, hb]
      · have hstep : loopTrace source target bsz (f + 1) s =
            s :: loopTrace source target bsz f
              ⟨s.all_jobs ++ scrape_batch source s.offset, s.offset + bsz,
               (s.all_jobs ++ scrape_batch source s.offset).length⟩ := by
          conv_lhs => rw [loopTrace]
          rw [if_pos hc]
          simp only [if_neg hb]
        obtain ⟨ihm, ihc⟩ := ih
          ⟨s.all_jobs ++ scrape_batch source s.offset, s.offset + bsz,
           (s.all_jobs ++ scrape_batch source s.offset).length⟩ rfl
        rw [hstep]
        constructor
        · intro t ht
          rcases List.mem_cons.mp ht with rfl | hmem
          · exact hinv
          · exact ihm t hmem
        · rw [List.chain'_cons']
          refine ⟨?_, ihc⟩
          intro y hy
          obtain ⟨l, hl⟩ := loopTrace_head source target bsz f
            ⟨s.all_jobs ++ scrape_batch source s.offset, s.offset + bsz,
             (s.all_jobs ++ scrape_batch source s.offset).length⟩
          rw [hl] at hy
          simp only [List.head?_cons, Option.mem_def, Option.some.injEq] at hy
          rw [← hy]
    · constructor
      · intro t ht
        have : t = s := by simpa [loopTrace, hc] using ht
        rw [this]
        exact hinv
      · simp [loopTrace, hc]

/-- Witness for claim C6: the invariant theorem applied to a concrete
short-page source from the initial state. -/
theorem claim_C6_witness :
    (∀ t ∈ loopTrace (fun _ => (Except.ok [7] : Except Unit (List Nat))) 2 25 5
        (initState Nat), t.total_results = t.all_jobs.length) ∧
    List.Chain' (fun a b => b.offset = a.offset + 25)
      (loopTrace (fun _ => (Except.ok [7] : Except Unit (List Nat))) 2 25 5
        (initState Nat)) :=
  claim_C6 _ 2 25 5 (initState Nat) rfl
